import Mathlib

/-!
# csv2qif: ING bank CSV to QIF conversion

A shallow embedding of `main.go`: `ParseRecord`, `Record.QifRecord` and the
conversion loop of `run`, together with the parts of the Go standard library
they call (`strings`, `strconv`, `time`, `fmt`, `encoding/csv`), modelled from
their documented behaviour.

A Go string holding UTF-8 text is modelled as the list of its code points.
-/

namespace Csv2Qif

/-- A Go string (UTF-8 text) as the sequence of its code points. -/
abbrev GoString := List Char

deriving instance DecidableEq for Except

/-! ## fmt: decimal integers -/

/-- The ASCII digit for `d < 10`. -/
def digitChar (d : Nat) : Char := Char.ofNat (48 + d)

/-- Whether `c` is one of the ASCII digits `0` to `9`. -/
def isDigit (c : Char) : Bool := 48 ≤ c.toNat && c.toNat ≤ 57

/-- The value of an ASCII digit (`c - '0'`). -/
def digitVal (c : Char) : Nat := c.toNat - 48

/-- Decimal digits of `n`, most significant first, prepended to `acc`. -/
def natDigitsAux : Nat → Nat → GoString → GoString
  | 0, _, acc => acc
  | fuel + 1, n, acc =>
    if n < 10 then digitChar n :: acc
    else natDigitsAux fuel (n / 10) (digitChar (n % 10) :: acc)

/-- The decimal numeral of a natural number (`%d` on a non-negative int). -/
def formatNat (n : Nat) : GoString := natDigitsAux (n + 1) n []

/-! ## strings -/

namespace strings

/-- White space as `unicode.IsSpace` defines it. -/
def IsSpace (c : Char) : Bool :=
  let r := c.toNat
  (9 ≤ r && r ≤ 13) || r = 32 || r = 0x85 || r = 0xA0 || r = 0x1680 ||
  (0x2000 ≤ r && r ≤ 0x200a) || r = 0x2028 || r = 0x2029 || r = 0x202f ||
  r = 0x205f || r = 0x3000

/-- The string with all leading and trailing white space removed. -/
def TrimSpace (s : GoString) : GoString :=
  ((s.dropWhile IsSpace).reverse.dropWhile IsSpace).reverse

/-- Whether `substr` occurs within `s`. -/
def Contains : GoString → GoString → Bool
  | [], substr => substr.isEmpty
  | c :: cs, substr => substr.isPrefixOf (c :: cs) || Contains cs substr

/-- The call `strings.Replace(s, old, new, 1)`: the first occurrence of `old`
replaced by `new`. -/
def ReplaceFirst : GoString → GoString → GoString → GoString
  | [], old, new => if old.isEmpty then new else []
  | c :: cs, old, new =>
    if old.isPrefixOf (c :: cs) then new ++ (c :: cs).drop old.length
    else c :: ReplaceFirst cs old new

/-- The elements concatenated with `sep` placed between them. -/
def Join : List GoString → GoString → GoString
  | [], _ => []
  | [e], _ => e
  | e :: es, sep => es.foldl (fun b s => b ++ sep ++ s) e

end strings

/-! ## time -/

namespace time

/-- A calendar date: what `Time.Format` reads for the year, month and day
verbs. -/
structure Time where
  year : Int
  month : Nat
  day : Nat
deriving DecidableEq, Repr

/-- The reasons `time.Parse` rejects a value. -/
inductive ParseError where
  | bad
  | monthOutOfRange
  | dayOutOfRange
  | extraText
deriving DecidableEq, Repr

def isLeap (year : Nat) : Bool := year % 4 = 0 && (year % 100 ≠ 0 || year % 400 = 0)

def daysIn (month year : Nat) : Nat :=
  if month = 2 then (if isLeap year then 29 else 28)
  else if month = 4 ∨ month = 6 ∨ month = 9 ∨ month = 11 then 30
  else 31

/-- The call `time.Parse("20060102", value)`: a four-digit year, a two-digit
month and a two-digit day with nothing before, between or after them; the
month is in 1..12 and the day exists in that month. -/
def Parse20060102 (value : GoString) : Except ParseError Time :=
  match value with
  | y1 :: y2 :: y3 :: y4 :: rest =>
    if !(isDigit y1 && isDigit y2 && isDigit y3 && isDigit y4) then .error .bad
    else
      let year := digitVal y1 * 1000 + digitVal y2 * 100 + digitVal y3 * 10 + digitVal y4
      match rest with
      | m1 :: m2 :: rest =>
        if !(isDigit m1 && isDigit m2) then .error .bad
        else
          let month := digitVal m1 * 10 + digitVal m2
          if month = 0 ∨ 12 < month then .error .monthOutOfRange
          else
            match rest with
            | d1 :: d2 :: rest =>
              if !(isDigit d1 && isDigit d2) then .error .bad
              else
                let day := digitVal d1 * 10 + digitVal d2
                if !rest.isEmpty then .error .extraText
                else if day < 1 ∨ daysIn month year < day then .error .dayOutOfRange
                else .ok { year := year, month := month, day := day }
            | _ => .error .bad
      | _ => .error .bad
  | _ => .error .bad

/-- The decimal numeral of `x`, zero-padded to at least `width` digits, after a
minus sign when `x` is negative. -/
def appendInt (x : Int) (width : Nat) : GoString :=
  let ds := formatNat x.natAbs
  (if x < 0 then ['-'] else []) ++ List.replicate (width - ds.length) '0' ++ ds

/-- The call `t.Format("01/02/2006")`. -/
def Format01_02_2006 (t : Time) : GoString :=
  appendInt t.month 2 ++ ['/'] ++ appendInt t.day 2 ++ ['/'] ++ appendInt t.year 4

end time

/-! ## float64 -/

/-- An IEEE 754 binary64 value by its three fields: the sign bit, the biased
exponent (11 bits) and the fraction (52 bits). -/
structure Float64 where
  sign : Bool
  expo : Nat
  frac : Nat
deriving DecidableEq, Repr

namespace Float64

def IsNaN (x : Float64) : Bool := x.expo = 2047 && x.frac ≠ 0

def IsInf (x : Float64) : Bool := x.expo = 2047 && x.frac = 0

def IsFinite (x : Float64) : Bool := x.expo ≠ 2047

def isZero (x : Float64) : Bool := x.expo = 0 && x.frac = 0

/-- The value `math.NaN()` returns (bits `0x7FF8000000000001`). -/
def NaN : Float64 := ⟨false, 2047, 2 ^ 51 + 1⟩

/-- The value `math.Inf(sign)` returns. -/
def Inf (neg : Bool) : Float64 := ⟨neg, 2047, 0⟩

/-- Unary minus: the sign bit flipped. -/
def neg (x : Float64) : Float64 := { x with sign := !x.sign }

/-- The call `math.Abs(x)`: the sign bit cleared. -/
def Abs (x : Float64) : Float64 := { x with sign := false }

/-- The comparison `x < 0`. -/
def ltZero (x : Float64) : Bool := !x.IsNaN && x.sign && !x.isZero

/-- The comparison `x <= 0`. -/
def leZero (x : Float64) : Bool := !x.IsNaN && (x.sign || x.isZero)

/-- The comparison `x >= 0`. -/
def geZero (x : Float64) : Bool := !x.IsNaN && (!x.sign || x.isZero)

/-- The integer significand `m` of a finite value `m * 2 ^ e`. -/
def significand (x : Float64) : Nat := if x.expo = 0 then x.frac else 2 ^ 52 + x.frac

/-- The exponent `e` of a finite value `m * 2 ^ e`. -/
def exponent (x : Float64) : Int := if x.expo = 0 then -1074 else (x.expo : Int) - 1075

/-- Whether `num / den ≥ 2 ^ e`. -/
def geTwoPow (num den : Nat) (e : Int) : Bool :=
  if 0 ≤ e then den * 2 ^ e.toNat ≤ num else den ≤ num * 2 ^ (-e).toNat

/-- The number of binary digits of `n`, given enough `fuel`. -/
def bitLenAux : Nat → Nat → Nat
  | 0, _ => 0
  | fuel + 1, n => if n = 0 then 0 else bitLenAux fuel (n / 2) + 1

/-- The number of binary digits of `n`. -/
def bitLen (n : Nat) : Nat := bitLenAux n n

/-- The floor of the binary logarithm of `num / den`, for positive `num` and
`den`. -/
def ilog2 (num den : Nat) : Int :=
  let e0 : Int := (bitLen num : Int) - (bitLen den : Int)
  if geTwoPow num den e0 then e0 else e0 - 1

/-- The integer nearest to `n / d`, a tie going to the even one. -/
def roundHalfEven (n d : Nat) : Nat :=
  let q := n / d
  let r := n % d
  if d < 2 * r ∨ (2 * r = d ∧ q % 2 = 1) then q + 1 else q

/-- The float64 nearest to `(-1) ^ neg * num / den` (IEEE 754 round to nearest,
ties to even), or `none` when it rounds beyond the largest finite float64. -/
def ofRat (neg : Bool) (num den : Nat) : Option Float64 :=
  if num = 0 then some ⟨neg, 0, 0⟩
  else
    let e := ilog2 num den
    let u : Int := max (e - 52) (-1074)
    let q :=
      if 0 ≤ u then roundHalfEven num (den * 2 ^ u.toNat)
      else roundHalfEven (num * 2 ^ (-u).toNat) den
    let ef : Nat × Nat :=
      if q < 2 ^ 52 then (0, q)
      else if q = 2 ^ 53 then ((u + 1076).toNat, 0)
      else ((u + 1075).toNat, q - 2 ^ 52)
    if 2047 ≤ ef.1 then none else some ⟨neg, ef.1, ef.2⟩

end Float64

/-! ## strconv -/

namespace strconv

/-- The two errors of `strconv.ParseFloat`. -/
inductive NumError where
  | ErrSyntax
  | ErrRange
deriving DecidableEq, Repr

/-- The code of `c | 0x20`: an ASCII letter in lower case. -/
def lower (c : Char) : Nat := c.toNat ||| 32

def isHexLetter (c : Char) : Bool := 97 ≤ lower c && lower c ≤ 102

/-- The length of the longest common prefix of `s` and the lower-case
`pfx`, ASCII upper-case letters of `s` matching their lower-case forms. -/
def commonPrefixLenIgnoreCase : GoString → GoString → Nat
  | c :: cs, p :: ps =>
    let c := if 65 ≤ c.toNat ∧ c.toNat ≤ 90 then Char.ofNat (c.toNat + 32) else c
    if c = p then commonPrefixLenIgnoreCase cs ps + 1 else 0
  | _, _ => 0

/-- The infinity case of `special`: `s` follows an optional sign of `nsign`
characters. -/
def specialInf (neg : Bool) (nsign : Nat) (s : GoString) : Option (Float64 × Nat) :=
  let n := commonPrefixLenIgnoreCase s "infinity".toList
  let n := if 3 < n ∧ n < 8 then 3 else n
  if n = 3 ∨ n = 8 then some (Float64.Inf neg, nsign + n) else none

/-- The value and length of a leading "NaN" or possibly signed "Inf" or
"Infinity", letter case ignored. -/
def special : GoString → Option (Float64 × Nat)
  | [] => none
  | c :: cs =>
    if c = '+' then specialInf false 1 cs
    else if c = '-' then specialInf true 1 cs
    else if c = 'i' ∨ c = 'I' then specialInf false 0 (c :: cs)
    else if c = 'n' ∨ c = 'N' then
      if commonPrefixLenIgnoreCase (c :: cs) "nan".toList = 3 then some (Float64.NaN, 3)
      else none
    else none

/-- The state of the digit loop of `readFloat`. The mantissa keeps every
digit. -/
structure Digits where
  mantissa : Nat := 0
  nd : Nat := 0
  dp : Int := 0
  sawdot : Bool := false
  sawdigits : Bool := false
  underscores : Bool := false
deriving DecidableEq, Repr

/-- The digit loop of `readFloat`: digits, underscores and at most one
point; the unread rest of the string is returned with the state. -/
def readDigits (base : Nat) : GoString → Digits → Digits × GoString
  | [], m => (m, [])
  | c :: cs, m =>
    if c = '_' then readDigits base cs { m with underscores := true }
    else if c = '.' then
      if m.sawdot then (m, c :: cs)
      else readDigits base cs { m with sawdot := true, dp := m.nd }
    else if isDigit c then
      if c = '0' ∧ m.nd = 0 then
        readDigits base cs { m with sawdigits := true, dp := m.dp - 1 }
      else
        readDigits base cs { m with sawdigits := true, nd := m.nd + 1,
                                    mantissa := m.mantissa * base + digitVal c }
    else if base = 16 ∧ isHexLetter c then
      readDigits base cs { m with sawdigits := true, nd := m.nd + 1,
                                  mantissa := m.mantissa * 16 + (lower c - 97 + 10) }
    else (m, c :: cs)

/-- The exponent loop of `readFloat`: digits and underscores; the exponent
stops growing once it has reached 10000. -/
def readExp : GoString → Nat → Bool → Nat × Bool × GoString
  | [], e, us => (e, us, [])
  | c :: cs, e, us =>
    if c = '_' then readExp cs e true
    else if isDigit c then readExp cs (if e < 10000 then e * 10 + digitVal c else e) us
    else (e, us, c :: cs)

/-- The scan of `underscoreOK`; `saw` is the kind of the previous character. -/
def underscoreScan (hex : Bool) : GoString → Char → Bool
  | [], saw => saw ≠ '_'
  | c :: cs, saw =>
    if isDigit c || (hex && isHexLetter c) then underscoreScan hex cs '0'
    else if c = '_' then (if saw ≠ '0' then false else underscoreScan hex cs '_')
    else if saw = '_' then false
    else underscoreScan hex cs '!'

/-- Whether every underscore of `s` separates two digits, or a base prefix
and a digit. -/
def underscoreOK (s : GoString) : Bool :=
  let s := match s with
    | c :: cs => if c = '-' ∨ c = '+' then cs else s
    | [] => s
  match s with
  | c0 :: c1 :: rest =>
    if c0 = '0' ∧ (lower c1 = 98 ∨ lower c1 = 111 ∨ lower c1 = 120) then
      underscoreScan (lower c1 = 120) rest '0'
    else underscoreScan false s '^'
  | _ => underscoreScan false s '^'

/-- What `readFloat` returns when it accepts a prefix of the string. -/
structure Scan where
  mantissa : Nat
  exp : Int
  neg : Bool
  hex : Bool
  rest : GoString
deriving DecidableEq, Repr

/-- The scanner `readFloat`: an optional sign, an optional `0x` prefix, the
digits with an optional point, and an exponent (`e`, or `p` and required in
base 16). The value read is `mantissa * 10 ^ exp`, in base 16
`mantissa * 2 ^ exp`. -/
def readFloat (s : GoString) : Option Scan :=
  match s with
  | [] => none
  | c :: cs =>
    let neg := c = '-'
    let t := if c = '+' ∨ c = '-' then cs else s
    let hex : Bool :=
      match t with
      | c0 :: c1 :: _ :: _ => c0 = '0' ∧ lower c1 = 120
      | _ => false
    let base := if hex then 16 else 10
    let (m, rest) := readDigits base (if hex then t.drop 2 else t) {}
    if !m.sawdigits then none
    else
      let dp : Int := if m.sawdot then m.dp else m.nd
      let dp := if hex then dp * 4 else dp
      let ndMant : Int := if hex then m.nd * 4 else m.nd
      let expChar := if hex then 112 else 101
      let finish (dp : Int) (underscores : Bool) (rest : GoString) : Option Scan :=
        if underscores ∧ !underscoreOK (s.take (s.length - rest.length)) then none
        else some { mantissa := m.mantissa, exp := if m.mantissa ≠ 0 then dp - ndMant else 0,
                    neg := neg, hex := hex, rest := rest }
      match rest with
      | x :: xs =>
        if lower x = expChar then
          match xs with
          | [] => none
          | y :: ys =>
            let esign : Int := if y = '-' then -1 else 1
            let ds := if y = '+' ∨ y = '-' then ys else xs
            match ds with
            | [] => none
            | d :: _ =>
              if !isDigit d then none
              else
                let (e, us, rest) := readExp ds 0 m.underscores
                finish (dp + e * esign) us rest
        else if hex then none
        else finish dp m.underscores rest
      | [] => if hex then none else finish dp m.underscores rest

/-- The call `strconv.ParseFloat(s, 64)`: "NaN", a possibly signed "Inf" or
"Infinity", or a decimal or hexadecimal floating-point literal taking the
whole string, converted to the nearest float64 (ties to even); a literal that
rounds beyond the largest finite value is a range error. -/
def ParseFloat (s : GoString) : Except NumError Float64 :=
  match special s with
  | some (f, n) => if n = s.length then .ok f else .error .ErrSyntax
  | none =>
    match readFloat s with
    | none => .error .ErrSyntax
    | some r =>
      if !r.rest.isEmpty then .error .ErrSyntax
      else
        let b := if r.hex then 2 else 10
        let f :=
          if 0 ≤ r.exp then Float64.ofRat r.neg (r.mantissa * b ^ r.exp.toNat) 1
          else Float64.ofRat r.neg r.mantissa (b ^ (-r.exp).toNat)
        match f with
        | some f => .ok f
        | none => .error .ErrRange

end strconv

/-! ## fmt -/

namespace fmt

/-- A natural number below 100 as two decimal digits. -/
def twoDigits (n : Nat) : GoString := [digitChar (n / 10), digitChar (n % 10)]

/-- The finite value `|x|` in hundredths, rounded to the nearest integer with
a tie going to the even one. -/
def hundredths (x : Float64) : Nat :=
  if 0 ≤ x.exponent then x.significand * 100 * 2 ^ x.exponent.toNat
  else Float64.roundHalfEven (x.significand * 100) (2 ^ (-x.exponent).toNat)

/-- The call `fmt.Sprintf("%.2f", x)`: the exact decimal expansion of `x`
rounded to two digits after the point, after a minus sign when the sign bit is
set; "NaN", "+Inf" and "-Inf" for the values that are not finite. -/
def Sprintf_2f (x : Float64) : GoString :=
  if x.IsNaN then "NaN".toList
  else if x.IsInf then (if x.sign then "-Inf".toList else "+Inf".toList)
  else
    let c := hundredths x
    (if x.sign then ['-'] else []) ++ formatNat (c / 100) ++ ['.'] ++ twoDigits (c % 100)

end fmt

/-! ## encoding/csv -/

namespace csv

/-- The field-count check of `Reader.Read` on one record, for a reader whose
`FieldsPerRecord` is `n`: the new `FieldsPerRecord`, or `none` for the error
`ErrFieldCount`. The package documents the field: "If FieldsPerRecord is
positive, Read requires each record to have the given number of fields. If
FieldsPerRecord is 0, Read sets it to the number of fields in the first
record, so that future records must have the same field count." A reader made
by `csv.NewReader` starts with 0, and `run` leaves it so. -/
def checkFieldCount (n : Nat) (record : List GoString) : Option Nat :=
  if 0 < n then (if record.length ≠ n then none else some n)
  else some record.length

end csv

/-! ## main.go -/

/-- The flags `useCode`, `useKind` and `useComment`. -/
structure Options where
  useCode : Bool
  useKind : Bool
  useComment : Bool
deriving DecidableEq, Repr

/-- Record holds the fields of the csv import file by name. -/
structure Record where
  Date : time.Time
  Name : GoString
  IBAN : GoString
  OtherIBAN : GoString
  Code : GoString
  Direction : GoString
  Amount : Float64
  TransactionKind : GoString
  Comments : GoString
  RawFields : List GoString
deriving DecidableEq, Repr

/-- The errors `ParseRecord` returns. -/
inductive Error where
  /-- The text of
  `fmt.Errorf("Wrong number of columns in record, expected 9, got %d", len(raw))`. -/
  | columns (text : GoString)
  /-- The error `fmt.Errorf("Error parsing date: %s", err.Error())`. -/
  | date (err : time.ParseError)
  /-- The error `fmt.Errorf("Error parsing amount:  %s", err.Error())`. -/
  | amount (err : strconv.NumError)
deriving DecidableEq, Repr

def QifHeader : GoString := "!Type:Bank".toList

/-- The slice `comments` of `QifRecord`: the memo fragments, appended in the
order code, transaction kind, comments. -/
def Record.comments (r : Record) (o : Options) : List GoString :=
  let comments : List GoString := []
  let comments := if o.useCode then comments ++ [r.Code] else comments
  let comments := if o.useKind then comments ++ [r.TransactionKind] else comments
  let comments := if o.useComment then comments ++ [r.Comments] else comments
  comments

/-- QifRecord returns the record as a qif formatted record string. -/
def Record.QifRecord (r : Record) (o : Options) : GoString :=
  ("D".toList ++ time.Format01_02_2006 r.Date ++ "\n".toList) ++
  ("T".toList ++ fmt.Sprintf_2f r.Amount ++ "\n".toList) ++
  ("U".toList ++ fmt.Sprintf_2f r.Amount ++ "\n".toList) ++
  ("P".toList ++ r.Name ++ "\n".toList) ++
  ("M".toList ++ strings.Join (r.comments o) " ".toList ++ "\n".toList) ++
  "Cc\n".toList ++
  "N\n".toList ++
  "^\n".toList

/-- ParseRecord parses a csv Record. -/
def ParseRecord (raw : List GoString) : Except Error Record :=
  if raw.length ≠ 9 then
    .error (.columns ("Wrong number of columns in record, expected 9, got ".toList ++
      formatNat raw.length))
  else
    match time.Parse20060102 (raw.getD 0 []) with
    | .error err => .error (.date err)
    | .ok date =>
      match strconv.ParseFloat (strings.ReplaceFirst (raw.getD 6 []) ",".toList ".".toList) with
      | .error err => .error (.amount err)
      | .ok amount =>
        let r : Record :=
          { Date := date
            Name := strings.TrimSpace (raw.getD 1 [])
            IBAN := strings.TrimSpace (raw.getD 2 [])
            OtherIBAN := strings.TrimSpace (raw.getD 3 [])
            Code := strings.TrimSpace (raw.getD 4 [])
            Direction := strings.TrimSpace (raw.getD 5 [])
            Amount := amount
            TransactionKind := strings.TrimSpace (raw.getD 7 [])
            Comments := strings.TrimSpace (raw.getD 8 [])
            RawFields := raw }
        let r := if strings.Contains r.Direction "Af".toList
          then { r with Amount := (Float64.Abs amount).neg } else r
        .ok r

/-- The `log.Fatalf` calls of the conversion loop. -/
inductive Fatal where
  /-- The reader failed on line `line`. -/
  | read (line : Nat)
  /-- The record of line `line` did not parse. -/
  | parse (line : Nat) (err : Error)
deriving DecidableEq, Repr

/-- What a run leaves behind: the text written to the output file, and the
fatal error that ended the run, if any. -/
structure Outcome where
  output : GoString
  fatal : Option Fatal
deriving DecidableEq, Repr

/-- The `for` loop of `run` over the records the input still holds;
`fieldsPerRecord` is the reader's field count, `line` the counter before the
iteration and `out` the text written so far. -/
def loop (skipHeaders : Bool) (o : Options) :
    List (List GoString) → Nat → Nat → GoString → Outcome
  | [], _, _, out => { output := out, fatal := none }
  | raw :: rest, fieldsPerRecord, line, out =>
    let line := line + 1
    match csv.checkFieldCount fieldsPerRecord raw with
    | none => { output := out, fatal := some (.read line) }
    | some fieldsPerRecord =>
      if line = 1 ∧ skipHeaders then loop skipHeaders o rest fieldsPerRecord line out
      else
        match ParseRecord raw with
        | .error err => { output := out, fatal := some (.parse line err) }
        | .ok record => loop skipHeaders o rest fieldsPerRecord line (out ++ record.QifRecord o)

/-- The conversion of `run`, from the creation of the csv reader on: the Qif
header line, then the loop over the records of the input. The input is a
syntactically well-formed csv text, given as the list of its records. -/
def run (skipHeaders : Bool) (o : Options) (records : List (List GoString)) : Outcome :=
  loop skipHeaders o records 0 0 (QifHeader ++ "\n".toList)

/-- The bytes of a string (its UTF-8 encoding). -/
def bytes (s : String) : List UInt8 := s.toList.flatMap String.utf8EncodeChar

/-- The output path that `run` opens, on the bytes of the flags `inFile` and
`outFile`: an empty `outFile` becomes `inFile[:len(inFile)-3] + "qif"`;
`none` is the run-time panic of a slice bound out of range. -/
def outFilePath (inFile outFile : List UInt8) : Option (List UInt8) :=
  if outFile.length = 0 then
    (if inFile.length < 3 then none
     else some (inFile.take (inFile.length - 3) ++ bytes "qif"))
  else some outFile

/-! ## Definitions used to state the properties -/

/-- The number a string of digits denotes. -/
def readNat (s : GoString) : Nat := s.foldl (fun a c => a * 10 + digitVal c) 0

/-- The memo as the specification words it: the enabled fragments among code,
transaction kind and comments, in that order, joined by a single space. -/
def memoSpec (r : Record) (o : Options) : GoString :=
  List.intercalate [' ']
    (([(o.useCode, r.Code), (o.useKind, r.TransactionKind),
       (o.useComment, r.Comments)].filter Prod.fst).map Prod.snd)

/-- The lines of a text: the runs of characters between newlines, each ended
by a newline (a last run that no newline ends counts as a line too). -/
def lines : GoString → List GoString
  | [] => []
  | c :: cs =>
    if c = '\n' then [] :: lines cs
    else
      match lines cs with
      | [] => [[c]]
      | l :: ls => (c :: l) :: ls

/-- The text made of the given lines, a single newline after each. -/
def unlines (ls : List GoString) : GoString := (ls.map (fun l => l ++ ['\n'])).flatten

/-- The eight lines of a block as the specification lists them. -/
def qifLines (r : Record) (o : Options) : List GoString :=
  ["D".toList ++ time.Format01_02_2006 r.Date,
   "T".toList ++ fmt.Sprintf_2f r.Amount,
   "U".toList ++ fmt.Sprintf_2f r.Amount,
   "P".toList ++ r.Name,
   "M".toList ++ memoSpec r o,
   "Cc".toList,
   "N".toList,
   "^".toList]

/-- A row of an ING export with the given date, name, direction and amount
columns. -/
def sampleRow (date name direction amount : String) : List GoString :=
  [date, name, "NL09INGB1234567890", "", "BA", direction, amount, "Betaalautomaat",
   "Pasvolgnr 001"].map String.toList

/-- The record that `ParseRecord` makes of `sampleRow date name direction
amount`, given the date and the amount it arrives at. -/
def sampleRecord (date name direction amount : String) (d : time.Time) (a : Float64) :
    Record :=
  { Date := d, Name := strings.TrimSpace name.toList, IBAN := "NL09INGB1234567890".toList,
    OtherIBAN := [], Code := "BA".toList, Direction := strings.TrimSpace direction.toList,
    Amount := a, TransactionKind := "Betaalautomaat".toList,
    Comments := "Pasvolgnr 001".toList,
    RawFields := sampleRow date name direction amount }

/-- A row of an ING export with the given code, transaction kind and comments
columns. -/
def memoRow (code kind comments : String) : List GoString :=
  ["20161003", "Albert Heijn", "NL09INGB1234567890", "", code, "Af", "12,34", kind,
   comments].map String.toList

/-- The header row of an ING export: nine column titles. -/
def headerRow : List GoString :=
  ["Datum", "Naam / Omschrijving", "Rekening", "Tegenrekening", "Code", "Af Bij",
   "Bedrag (EUR)", "MutatieSoort", "Mededelingen"].map String.toList

/-! ## Properties -/

/-! ### Decimal numerals -/

theorem digitChar_toNat {d : Nat} (h : d < 10) : (digitChar d).toNat = 48 + d := by
  interval_cases d <;> rfl

theorem isDigit_digitChar {d : Nat} (h : d < 10) : isDigit (digitChar d) = true := by
  interval_cases d <;> rfl

theorem digitVal_digitChar {d : Nat} (h : d < 10) : digitVal (digitChar d) = d := by
  interval_cases d <;> rfl

theorem digitChar_digitVal {c : Char} (h : isDigit c = true) : digitChar (digitVal c) = c := by
  have hc : 48 ≤ c.toNat ∧ c.toNat ≤ 57 := by simpa [isDigit] using h
  apply Char.ext
  apply UInt32.ext
  have h1 : (digitChar (digitVal c)).toNat = c.toNat := by
    rw [digitChar_toNat (by unfold digitVal; omega)]
    unfold digitVal; omega
  exact h1

theorem digitVal_lt {c : Char} (h : isDigit c = true) : digitVal c < 10 := by
  have hc : 48 ≤ c.toNat ∧ c.toNat ≤ 57 := by simpa [isDigit] using h
  unfold digitVal; omega

theorem natDigitsAux_append (fuel n : Nat) (acc : GoString) :
    natDigitsAux fuel n acc = natDigitsAux fuel n [] ++ acc := by
  induction fuel generalizing n acc with
  | zero => simp [natDigitsAux]
  | succ fuel ih =>
    unfold natDigitsAux
    split
    · simp
    · rw [ih (n / 10) (digitChar (n % 10) :: acc), ih (n / 10) [digitChar (n % 10)]]
      simp

theorem natDigitsAux_fuel (fuel₁ fuel₂ n : Nat) (acc : GoString)
    (h₁ : n < fuel₁) (h₂ : n < fuel₂) :
    natDigitsAux fuel₁ n acc = natDigitsAux fuel₂ n acc := by
  induction fuel₁ generalizing fuel₂ n acc with
  | zero => omega
  | succ f₁ ih =>
    cases fuel₂ with
    | zero => omega
    | succ f₂ =>
      unfold natDigitsAux
      split
      · rfl
      · exact ih f₂ (n / 10) _ (by omega) (by omega)

theorem formatNat_lt {n : Nat} (h : n < 10) : formatNat n = [digitChar n] := by
  simp [formatNat, natDigitsAux, h]

theorem formatNat_ge {n : Nat} (h : 10 ≤ n) :
    formatNat n = formatNat (n / 10) ++ [digitChar (n % 10)] := by
  have h' : ¬ n < 10 := by omega
  unfold formatNat
  rw [natDigitsAux, if_neg h', natDigitsAux_append]
  rw [natDigitsAux_fuel n (n / 10 + 1) (n / 10) [] (by omega) (by omega)]

/-- Every character of a decimal numeral is a digit. -/
theorem isDigit_of_mem_formatNat (n : Nat) : ∀ c ∈ formatNat n, isDigit c = true := by
  induction n using Nat.strongRecOn with
  | _ n ih =>
    intro c hc
    by_cases h : n < 10
    · rw [formatNat_lt h] at hc
      simp only [List.mem_singleton] at hc
      subst hc
      exact isDigit_digitChar h
    · rw [formatNat_ge (by omega)] at hc
      rcases List.mem_append.mp hc with hc | hc
      · exact ih (n / 10) (by omega) c hc
      · simp only [List.mem_singleton] at hc
        subst hc
        exact isDigit_digitChar (Nat.mod_lt n (by decide))

theorem formatNat_ne_nil (n : Nat) : formatNat n ≠ [] := by
  by_cases h : n < 10
  · simp [formatNat_lt h]
  · simp [formatNat_ge (show 10 ≤ n by omega)]

/-- Reading a decimal numeral gives back the number it was made from. -/
theorem readNat_formatNat (n : Nat) : readNat (formatNat n) = n := by
  induction n using Nat.strongRecOn with
  | _ n ih =>
    by_cases h : n < 10
    · simp [formatNat_lt h, readNat, digitVal_digitChar h]
    · rw [formatNat_ge (by omega)]
      have := ih (n / 10) (by omega)
      unfold readNat at this ⊢
      rw [List.foldl_append, this]
      simp only [List.foldl_cons, List.foldl_nil]
      rw [digitVal_digitChar (Nat.mod_lt n (by decide))]
      omega

/-! ### Binary length -/

/-- With fuel at least `n`, `n` is below two to the power of its binary
length. -/
theorem lt_two_pow_bitLenAux (fuel n : Nat) (h : n ≤ fuel) :
    n < 2 ^ Float64.bitLenAux fuel n := by
  induction fuel generalizing n with
  | zero =>
    have : n = 0 := by omega
    subst this
    simp [Float64.bitLenAux]
  | succ fuel ih =>
    unfold Float64.bitLenAux
    split
    · rename_i h0
      subst h0
      simp
    · have := ih (n / 2) (by omega)
      rw [pow_succ]
      omega

/-- With fuel at least `n`, a positive `n` is at least two to the power of its
binary length less one. -/
theorem two_pow_bitLenAux_le (fuel n : Nat) (h : n ≤ fuel) (hn : 0 < n) :
    2 ^ (Float64.bitLenAux fuel n - 1) ≤ n := by
  induction fuel generalizing n with
  | zero => omega
  | succ fuel ih =>
    unfold Float64.bitLenAux
    have h0 : ¬ n = 0 := by omega
    simp only [h0, if_false, Nat.add_sub_cancel]
    by_cases h2 : n / 2 = 0
    · cases fuel with
      | zero => simp [Float64.bitLenAux]; omega
      | succ f => simp [Float64.bitLenAux, h2]; omega
    · have := ih (n / 2) (by omega) (by omega)
      have hpos : 0 < Float64.bitLenAux fuel (n / 2) := by
        cases fuel with
        | zero => omega
        | succ f => simp [Float64.bitLenAux, h2]
      have e : Float64.bitLenAux fuel (n / 2) =
          (Float64.bitLenAux fuel (n / 2) - 1) + 1 := by omega
      rw [e, pow_succ]
      omega

/-- The binary length brackets a positive number between consecutive powers
of two. -/
theorem bitLen_spec (n : Nat) (hn : 0 < n) :
    2 ^ (Float64.bitLen n - 1) ≤ n ∧ n < 2 ^ Float64.bitLen n :=
  ⟨two_pow_bitLenAux_le n n (le_refl n) hn, lt_two_pow_bitLenAux n n (le_refl n)⟩

/-! ### The column count -/

/-- C1: a row whose number of columns is not 9 is rejected, whatever the
columns contain, and the error text is "Wrong number of columns in record,
expected 9, got " followed by the decimal numeral of the actual number of
columns: a string of digits that reads back as that number. -/
theorem ParseRecord_wrong_columns (raw : List GoString) (h : raw.length ≠ 9) :
    ParseRecord raw = .error (.columns
        ("Wrong number of columns in record, expected 9, got ".toList ++
          formatNat raw.length)) ∧
      (∀ c ∈ formatNat raw.length, isDigit c = true) ∧
      readNat (formatNat raw.length) = raw.length := by
  refine ⟨?_, isDigit_of_mem_formatNat _, readNat_formatNat _⟩
  simp [ParseRecord, h]

/-- C1 at a row of ten empty columns: the text ends in "got 10". -/
theorem ParseRecord_wrong_columns_witness :
    ParseRecord (List.replicate 10 []) = .error (.columns
        "Wrong number of columns in record, expected 9, got 10".toList) :=
  (ParseRecord_wrong_columns (List.replicate 10 []) (by decide)).1.trans (by decide)

/-! ### The text of an amount -/

/-- The text of a finite amount: a minus sign when the sign bit is set, the
numeral of the whole units, a point and two digits. -/
theorem Sprintf_2f_finite (x : Float64) (h : x.IsFinite = true) :
    fmt.Sprintf_2f x =
      (if x.sign then ['-'] else []) ++ formatNat (fmt.hundredths x / 100) ++
        ['.', digitChar (fmt.hundredths x % 100 / 10),
          digitChar (fmt.hundredths x % 100 % 10)] := by
  have he : x.expo ≠ 2047 := by simpa [Float64.IsFinite] using h
  simp [fmt.Sprintf_2f, Float64.IsNaN, Float64.IsInf, he, fmt.twoDigits]

/-- The text of an amount that has its sign bit set and is not NaN begins with
a minus sign. -/
theorem Sprintf_2f_head (x : Float64) (hs : x.sign = true) (hn : x.IsNaN = false) :
    (fmt.Sprintf_2f x).head? = some '-' := by
  by_cases hf : x.IsFinite = true
  · rw [Sprintf_2f_finite x hf, hs]
    rfl
  · have he : x.expo = 2047 := by simpa [Float64.IsFinite] using hf
    have hfr : x.frac = 0 := by simpa [Float64.IsNaN, he] using hn
    simp [fmt.Sprintf_2f, Float64.IsNaN, Float64.IsInf, he, hfr, hs]

/-! ### Accepted rows -/

/-- A row of nine columns whose date and amount columns parse is accepted; the
record holds the parsed date, the trimmed name, and the parsed amount, negated
in absolute value when the trimmed direction contains "Af". -/
theorem ParseRecord_accepts (raw : List GoString) (date : time.Time) (a : Float64)
    (hlen : raw.length = 9)
    (hdate : time.Parse20060102 (raw.getD 0 []) = .ok date)
    (hamount : strconv.ParseFloat
      (strings.ReplaceFirst (raw.getD 6 []) ",".toList ".".toList) = .ok a) :
    ∃ r, ParseRecord raw = .ok r ∧ r.Date = date ∧
      r.Name = strings.TrimSpace (raw.getD 1 []) ∧
      r.Amount = (if strings.Contains (strings.TrimSpace (raw.getD 5 [])) "Af".toList
        then (Float64.Abs a).neg else a) := by
  have hne : ¬ raw.length ≠ 9 := by omega
  unfold ParseRecord
  simp only [hne, if_false, hdate, hamount]
  split
  · exact ⟨_, rfl, rfl, rfl, rfl⟩
  · exact ⟨_, rfl, rfl, rfl, rfl⟩

/-- An accepted row has nine columns, and its date and amount columns
parse. -/
theorem ParseRecord_ok (raw : List GoString) (r : Record) (h : ParseRecord raw = .ok r) :
    raw.length = 9 ∧
    (∃ date, time.Parse20060102 (raw.getD 0 []) = .ok date) ∧
    ∃ a, strconv.ParseFloat (strings.ReplaceFirst (raw.getD 6 []) ",".toList ".".toList)
      = .ok a := by
  unfold ParseRecord at h
  split at h
  · cases h
  · rename_i hlen
    split at h
    · cases h
    · rename_i date hd
      split at h
      · cases h
      · rename_i a ha
        exact ⟨by omega, ⟨date, hd⟩, ⟨a, ha⟩⟩

/-! ### The amount and its sign -/

/-- C2, amended: on an accepted row whose trimmed direction contains "Af", the
amount is the negated absolute value of the float parsed from column 6 (first
comma replaced by a period); its sign bit is set whatever sign the numeral is
written with, and it is `<= 0` exactly when the numeral is not NaN; its text
on the amount lines then begins with a minus sign. -/
theorem ParseRecord_outgoing_amount (raw : List GoString) (r : Record)
    (h : ParseRecord raw = .ok r)
    (hAf : strings.Contains (strings.TrimSpace (raw.getD 5 [])) "Af".toList = true) :
    ∃ a, strconv.ParseFloat (strings.ReplaceFirst (raw.getD 6 []) ",".toList ".".toList)
          = .ok a ∧
      r.Amount = (Float64.Abs a).neg ∧ r.Amount.sign = true ∧
      r.Amount.leZero = !a.IsNaN ∧
      (a.IsNaN = false → (fmt.Sprintf_2f r.Amount).head? = some '-') := by
  unfold ParseRecord at h
  split at h
  · cases h
  · split at h
    · cases h
    · split at h
      · cases h
      · rename_i a ha
        refine ⟨a, ha, ?_⟩
        simp only [hAf, if_true, Except.ok.injEq] at h
        subst h
        refine ⟨rfl, rfl, by simp [Float64.neg, Float64.Abs, Float64.leZero, Float64.IsNaN],
          ?_⟩
        intro hn
        exact Sprintf_2f_head _ rfl (by simpa [Float64.neg, Float64.Abs, Float64.IsNaN] using hn)

/-- C2 at the row with amount "-12,34" and direction "Af": the amount is
-12.34. -/
theorem ParseRecord_outgoing_amount_witness :
    ∃ a, strconv.ParseFloat (strings.ReplaceFirst
          ((sampleRow "20161003" "Albert Heijn" "Af" "-12,34").getD 6 [])
          ",".toList ".".toList) = .ok a ∧
      (⟨true, 1026, 0x8ae147ae147ae⟩ : Float64) = (Float64.Abs a).neg ∧
      (⟨true, 1026, 0x8ae147ae147ae⟩ : Float64).sign = true ∧
      (⟨true, 1026, 0x8ae147ae147ae⟩ : Float64).leZero = !a.IsNaN ∧
      (a.IsNaN = false →
        (fmt.Sprintf_2f ⟨true, 1026, 0x8ae147ae147ae⟩).head? = some '-') :=
  ParseRecord_outgoing_amount (sampleRow "20161003" "Albert Heijn" "Af" "-12,34")
    (sampleRecord "20161003" "Albert Heijn" "Af" "-12,34" ⟨2016, 10, 3⟩
      ⟨true, 1026, 0x8ae147ae147ae⟩)
    (by decide) (by decide)

/-- C2 fails at the amount "NaN": the row is accepted with direction "Af" and
its amount is NaN, which is not `<= 0`. -/
theorem ParseRecord_outgoing_NaN :
    (ParseRecord (sampleRow "20161003" "Albert Heijn" "Af" "NaN")).map
        (fun r => (r.Amount.IsNaN, r.Amount.leZero)) = .ok (true, false) ∧
      strings.Contains (strings.TrimSpace
        ((sampleRow "20161003" "Albert Heijn" "Af" "NaN").getD 5 [])) "Af".toList = true :=
  ⟨by decide, by decide⟩

/-- C3, amended: on an accepted row whose trimmed direction does not contain
"Af", the amount is the float parsed from column 6 (first comma replaced by a
period) as it is, so its magnitude is the numeral and it is `>= 0` exactly
when the numeral is. On every accepted row a negative amount means that the
direction contains "Af" or that the numeral itself is negative, and with "Af"
in the direction the amount is negative unless the numeral is zero or NaN. -/
theorem ParseRecord_amount_as_parsed (raw : List GoString) (r : Record)
    (h : ParseRecord raw = .ok r) :
    ∃ a, strconv.ParseFloat (strings.ReplaceFirst (raw.getD 6 []) ",".toList ".".toList)
          = .ok a ∧
      (strings.Contains (strings.TrimSpace (raw.getD 5 [])) "Af".toList = false →
        r.Amount = a ∧ Float64.Abs r.Amount = Float64.Abs a ∧
        r.Amount.geZero = a.geZero) ∧
      (r.Amount.ltZero = true →
        strings.Contains (strings.TrimSpace (raw.getD 5 [])) "Af".toList = true ∨
        a.ltZero = true) ∧
      (strings.Contains (strings.TrimSpace (raw.getD 5 [])) "Af".toList = true →
        r.Amount.ltZero = (!a.IsNaN && !a.isZero)) := by
  unfold ParseRecord at h
  split at h
  · cases h
  · split at h
    · cases h
    · split at h
      · cases h
      · rename_i a ha
        refine ⟨a, ha, ?_, ?_, ?_⟩
        rotate_left 2
        · intro hAf
          simp only [hAf, if_true, Except.ok.injEq] at h
          subst h
          simp [Float64.neg, Float64.Abs, Float64.ltZero, Float64.IsNaN, Float64.isZero]
        · intro hNot
          simp only [hNot, Bool.false_eq_true, if_false, Except.ok.injEq] at h
          subst h
          exact ⟨rfl, rfl, rfl⟩
        · intro hlt
          by_cases hc : strings.Contains (strings.TrimSpace (raw.getD 5 [])) "Af".toList = true
          · exact Or.inl hc
          · right
            simp only [hc, if_false, Except.ok.injEq] at h
            subst h
            exact hlt

/-- C3 at the row with amount "50,00" and direction "Bij": the amount is 50. -/
theorem ParseRecord_amount_as_parsed_witness :
    ∃ a, strconv.ParseFloat (strings.ReplaceFirst
          ((sampleRow "20161003" "Werkgever" "Bij" "50,00").getD 6 [])
          ",".toList ".".toList) = .ok a ∧
      (strings.Contains (strings.TrimSpace
          ((sampleRow "20161003" "Werkgever" "Bij" "50,00").getD 5 [])) "Af".toList = false →
        (⟨false, 1028, 0x9000000000000⟩ : Float64) = a ∧
        Float64.Abs ⟨false, 1028, 0x9000000000000⟩ = Float64.Abs a ∧
        (⟨false, 1028, 0x9000000000000⟩ : Float64).geZero = a.geZero) ∧
      ((⟨false, 1028, 0x9000000000000⟩ : Float64).ltZero = true →
        strings.Contains (strings.TrimSpace
          ((sampleRow "20161003" "Werkgever" "Bij" "50,00").getD 5 [])) "Af".toList = true ∨
        a.ltZero = true) ∧
      (strings.Contains (strings.TrimSpace
          ((sampleRow "20161003" "Werkgever" "Bij" "50,00").getD 5 [])) "Af".toList = true →
        (⟨false, 1028, 0x9000000000000⟩ : Float64).ltZero = (!a.IsNaN && !a.isZero)) :=
  ParseRecord_amount_as_parsed (sampleRow "20161003" "Werkgever" "Bij" "50,00")
    (sampleRecord "20161003" "Werkgever" "Bij" "50,00" ⟨2016, 10, 3⟩
      ⟨false, 1028, 0x9000000000000⟩)
    (by decide)

/-- C3 fails at the amount "-5,00" with direction "Bij": the row is accepted,
its direction does not contain "Af", and its amount is negative. -/
theorem ParseRecord_incoming_negative :
    (ParseRecord (sampleRow "20161003" "Werkgever" "Bij" "-5,00")).map
        (fun r => (r.Amount.geZero, r.Amount.ltZero)) = .ok (false, true) ∧
      strings.Contains (strings.TrimSpace
        ((sampleRow "20161003" "Werkgever" "Bij" "-5,00").getD 5 [])) "Af".toList = false :=
  ⟨by decide, by decide⟩

/-! ### The pieces of a block -/

/-- The memo that `QifRecord` joins is the memo as the specification words
it. -/
theorem Join_comments (r : Record) (o : Options) :
    strings.Join (r.comments o) " ".toList = memoSpec r o := by
  rcases o with ⟨a, b, c⟩
  cases a <;> cases b <;> cases c <;>
    simp [Record.comments, strings.Join, memoSpec, List.intercalate]

/-- The block is its eight lines, a newline after each. -/
theorem QifRecord_eq_unlines (r : Record) (o : Options) :
    r.QifRecord o = unlines (qifLines r o) := by
  unfold Record.QifRecord
  rw [Join_comments]
  simp [unlines, qifLines]

/-! ### The conversion loop -/

/-- The loop on rows that all parse, after the first iteration and with the
reader expecting nine fields: every block is appended, in order, and no error
ends the run. -/
theorem loop_all_parse (skipHeaders : Bool) (o : Options) (rows : List (List GoString))
    (records : List Record)
    (h : List.Forall₂ (fun raw r => ParseRecord raw = .ok r) rows records)
    (line : Nat) (hline : 1 ≤ line) (out : GoString) :
    loop skipHeaders o rows 9 line out =
      { output := out ++ (records.map (fun r => r.QifRecord o)).flatten, fatal := none } := by
  induction h generalizing line out with
  | nil => simp [loop]
  | @cons raw r rows records hr _ ih =>
    have hlen : raw.length = 9 := by
      by_contra hne
      simp [ParseRecord, hne] at hr
    have hl : ¬ (line + 1 = 1 ∧ skipHeaders = true) := by omega
    simp only [loop, csv.checkFieldCount, hlen, hr]
    simp only [Nat.lt_irrefl, if_true, ne_eq, not_true_eq_false, if_false, hl]
    simp only [show (0 : Nat) < 9 by decide, if_true]
    rw [ih (line + 1) (by omega)]
    simp [List.append_assoc]

/-- C9, amended: with header skipping enabled, two inputs that differ only in
their first row produce the same output and the same success or failure
whenever the two first rows have the same number of columns; what the first
row's columns contain is never looked at. -/
theorem run_skips_first_row (o : Options) (first₁ first₂ : List GoString)
    (rest : List (List GoString)) (hcols : first₁.length = first₂.length) :
    run true o (first₁ :: rest) = run true o (first₂ :: rest) := by
  simp [run, loop, csv.checkFieldCount, hcols]

/-- C9 at a header row and a data row of nine columns each, before the same
data row: both runs write the header line and one block. -/
theorem run_skips_first_row_witness :
    headerRow.length = (sampleRow "20161003" "Albert Heijn" "Af" "12,34").length ∧
    run true ⟨false, true, false⟩
        [headerRow, sampleRow "20161004" "Werkgever" "Bij" "50,00"] =
      run true ⟨false, true, false⟩
        [sampleRow "20161003" "Albert Heijn" "Af" "12,34",
         sampleRow "20161004" "Werkgever" "Bij" "50,00"] :=
  ⟨by decide, run_skips_first_row _ _ _ _ (by decide)⟩

/-- C9 fails at a first row with one column: after the nine-column header the
run succeeds with one block written, after the one-column first row the same
data row is refused by the csv reader and the run ends with a fatal error on
line 2. -/
theorem run_first_row_column_count :
    (run true ⟨false, true, false⟩
        [headerRow, sampleRow "20161004" "Werkgever" "Bij" "50,00"]).fatal = none ∧
    (run true ⟨false, true, false⟩
        [["Datum".toList], sampleRow "20161004" "Werkgever" "Bij" "50,00"]).fatal
      = some (.read 2) ∧
    (run true ⟨false, true, false⟩
        [headerRow, sampleRow "20161004" "Werkgever" "Bij" "50,00"]).output ≠
    (run true ⟨false, true, false⟩
        [["Datum".toList], sampleRow "20161004" "Werkgever" "Bij" "50,00"]).output :=
  ⟨by decide, by decide, by decide⟩

/-- When every row has as many columns as the first row and every data row
parses, no error ends the run and its output is the header line followed by
the block of each data row in input order. -/
theorem run_header_blocks (skipHeaders : Bool) (o : Options) (rows : List (List GoString))
    (records : List Record)
    (hcols : ∀ raw ∈ rows, raw.length = (rows.headD []).length)
    (hparse : List.Forall₂ (fun raw r => ParseRecord raw = .ok r)
      (if skipHeaders then rows.tail else rows) records) :
    run skipHeaders o rows =
      { output := QifHeader ++ "\n".toList ++
          (records.map (fun r => r.QifRecord o)).flatten,
        fatal := none } := by
  have hlen9 : ∀ raw r, ParseRecord raw = .ok r → raw.length = 9 := by
    intro raw r hr
    by_contra hne
    simp [ParseRecord, hne] at hr
  have main : run skipHeaders o rows =
      { output := QifHeader ++ "\n".toList ++
          (records.map (fun r => r.QifRecord o)).flatten,
        fatal := none } := by
    cases rows with
    | nil =>
      have : records = [] := by
        cases skipHeaders <;> simpa using hparse
      subst this
      simp [run, loop]
    | cons first rest =>
      cases skipHeaders with
      | true =>
        simp only [if_true, List.tail_cons] at hparse
        cases hparse with
        | nil => simp [run, loop, csv.checkFieldCount]
        | @cons raw r rest' records' hr hrest =>
          have h9 : first.length = 9 := by
            have := hcols raw (by simp)
            simp only [List.headD_cons] at this
            rw [← this]
            exact hlen9 raw r hr
          have := loop_all_parse true o (raw :: rest') (r :: records')
            (List.Forall₂.cons hr hrest) 1 (le_refl 1) (QifHeader ++ "\n".toList)
          simp only [run, loop, csv.checkFieldCount, Nat.lt_irrefl, if_false, h9,
            and_self, if_true, Nat.zero_add]
          exact this
      | false =>
        simp only [Bool.false_eq_true, if_false] at hparse
        cases hparse with
        | @cons raw r rest' records' hr hrest =>
          have h9 : first.length = 9 := hlen9 first r hr
          have := loop_all_parse false o rest records' hrest 1 (le_refl 1)
            (QifHeader ++ "\n".toList ++ r.QifRecord o)
          simp only [run, loop, csv.checkFieldCount, Nat.lt_irrefl, if_false, h9,
            Bool.false_eq_true, and_false, hr, Nat.zero_add]
          rw [this]
          simp [List.append_assoc]
  exact main

/-! ### The default output path -/

/-- C10, amended: when no output path is given and the input path has at
least three bytes, the output path is the input path with its last three bytes
replaced by "qif"; so a path that ends in a point and a three-byte extension
has that extension replaced by "qif". -/
theorem outFilePath_default (stem ext : List UInt8) (hext : ext.length = 3) :
    outFilePath (stem ++ ext) [] = some (stem ++ bytes "qif") ∧
    outFilePath (stem ++ bytes "." ++ ext) [] = some (stem ++ bytes "." ++ bytes "qif") := by
  have key : ∀ s : List UInt8, outFilePath (s ++ ext) [] = some (s ++ bytes "qif") := by
    intro s
    have h3 : ¬ (s ++ ext).length < 3 := by simp [hext]
    have htake : (s ++ ext).take ((s ++ ext).length - 3) = s := by
      rw [List.length_append, hext, Nat.add_sub_cancel, List.take_left]
    simp only [outFilePath, List.length_nil, if_true, h3, if_false, htake]
  exact ⟨key stem, key (stem ++ bytes ".")⟩

/-- C10 at "statement.csv": the output path is "statement.qif". -/
theorem outFilePath_default_witness :
    outFilePath (bytes "statement.csv") [] = some (bytes "statement.qif") :=
  (outFilePath_default (bytes "statement") (bytes "csv") (by decide)).2.trans (by decide)

/-- C10 fails at "data.text", whose extension has four bytes: the output path
is "data.tqif", not "data.qif". -/
theorem outFilePath_long_extension :
    outFilePath (bytes "data.text") [] = some (bytes "data.tqif") ∧
    outFilePath (bytes "data.text") [] ≠ some (bytes "data.qif") :=
  ⟨by decide, by decide⟩

/-! ### The lines of a block -/

theorem lines_append_newline (l rest : GoString) (h : '\n' ∉ l) :
    lines (l ++ '\n' :: rest) = l :: lines rest := by
  induction l with
  | nil => simp [lines]
  | cons c l ih =>
    have hc : c ≠ '\n' := fun e => h (by simp [e])
    have hl : '\n' ∉ l := fun e => h (List.mem_cons_of_mem _ e)
    simp only [List.cons_append, lines, hc, if_false, List.append_eq]
    rw [ih hl]

theorem lines_unlines (ls : List GoString) (h : ∀ l ∈ ls, '\n' ∉ l) :
    lines (unlines ls) = ls := by
  induction ls with
  | nil => simp [unlines, lines]
  | cons l ls ih =>
    have h1 : unlines (l :: ls) = l ++ '\n' :: unlines ls := by
      simp [unlines]
    rw [h1, lines_append_newline l _ (h l (by simp)), ih (fun l' hl' => h l' (by simp [hl']))]

theorem newline_not_digit {c : Char} (h : isDigit c = true) : c ≠ '\n' := by
  intro e
  subst e
  exact absurd h (by decide)

theorem newline_not_mem_appendInt (x : Int) (width : Nat) : '\n' ∉ time.appendInt x width := by
  intro h
  unfold time.appendInt at h
  simp only [List.mem_append, List.mem_replicate] at h
  rcases h with (h | h) | h
  · split at h
    · simp at h
    · simp at h
  · exact absurd h.2 (by decide)
  · exact newline_not_digit (isDigit_of_mem_formatNat _ _ h) rfl

theorem newline_not_mem_Format (t : time.Time) : '\n' ∉ time.Format01_02_2006 t := by
  intro h
  unfold time.Format01_02_2006 at h
  simp only [List.mem_append, List.mem_singleton] at h
  rcases h with (((h | h) | h) | h) | h
  · exact newline_not_mem_appendInt _ _ h
  · exact absurd h (by decide)
  · exact newline_not_mem_appendInt _ _ h
  · exact absurd h (by decide)
  · exact newline_not_mem_appendInt _ _ h

theorem newline_not_mem_Sprintf_2f (x : Float64) : '\n' ∉ fmt.Sprintf_2f x := by
  intro h
  unfold fmt.Sprintf_2f at h
  split at h
  · exact absurd h (by decide)
  · split at h
    · split at h
      · exact absurd h (by decide)
      · exact absurd h (by decide)
    · simp only [List.mem_append, List.mem_singleton, fmt.twoDigits, List.mem_cons,
        List.mem_nil_iff, or_false] at h
      rcases h with ((h | h) | h) | h
      · split at h
        · simp at h
        · simp at h
      · exact newline_not_digit (isDigit_of_mem_formatNat _ _ h) rfl
      · exact absurd h (by decide)
      · rcases h with h | h
        · exact newline_not_digit (isDigit_digitChar (by omega)) h.symm
        · exact newline_not_digit (isDigit_digitChar (Nat.mod_lt _ (by decide))) h.symm

/-- C4, amended: for every record and every setting of the options the block
is eight pieces, a single newline after each, in the order: "D" and the date,
"T" and the amount, "U" and the same amount text, "P" and the name as it is,
"M" and the memo, "Cc", "N", "^". When the name and the memo contain no
newline, these pieces are the lines of the block: exactly eight lines, none of
them empty. -/
theorem QifRecord_lines (r : Record) (o : Options) :
    r.QifRecord o = unlines (qifLines r o) ∧
    qifLines r o =
      ['D' :: time.Format01_02_2006 r.Date, 'T' :: fmt.Sprintf_2f r.Amount,
       'U' :: fmt.Sprintf_2f r.Amount, 'P' :: r.Name, 'M' :: memoSpec r o,
       ['C', 'c'], ['N'], ['^']] ∧
    ('\n' ∉ r.Name → '\n' ∉ memoSpec r o →
      lines (r.QifRecord o) = qifLines r o ∧
      (lines (r.QifRecord o)).length = 8 ∧
      (∀ l ∈ lines (r.QifRecord o), l ≠ [])) := by
  refine ⟨QifRecord_eq_unlines r o, rfl, ?_⟩
  intro hName hMemo
  have hl : lines (r.QifRecord o) = qifLines r o := by
    rw [QifRecord_eq_unlines]
    apply lines_unlines
    intro l hl
    simp only [qifLines, List.mem_cons, List.mem_singleton, List.mem_nil_iff, or_false] at hl
    have hD := newline_not_mem_Format r.Date
    have hT := newline_not_mem_Sprintf_2f r.Amount
    rcases hl with rfl | rfl | rfl | rfl | rfl | rfl | rfl | rfl <;>
      simp [hD, hT, hName, hMemo]
  refine ⟨hl, ?_, ?_⟩
  · rw [hl]; rfl
  · rw [hl]
    intro l hl'
    simp only [qifLines, List.mem_cons, List.mem_singleton, List.mem_nil_iff, or_false] at hl'
    rcases hl' with rfl | rfl | rfl | rfl | rfl | rfl | rfl | rfl <;> simp

/-- C4 at the record of a payment to "Albert Heijn" with only the transaction
kind in the memo: the eight lines of its block. -/
theorem QifRecord_lines_witness :
    lines ((sampleRecord "20161003" "Albert Heijn" "Af" "12,34" ⟨2016, 10, 3⟩
        ⟨true, 1026, 0x8ae147ae147ae⟩).QifRecord ⟨false, true, false⟩) =
      ["D10/03/2016", "T-12.34", "U-12.34", "PAlbert Heijn", "MBetaalautomaat", "Cc", "N",
       "^"].map String.toList :=
  ((QifRecord_lines (sampleRecord "20161003" "Albert Heijn" "Af" "12,34" ⟨2016, 10, 3⟩
      ⟨true, 1026, 0x8ae147ae147ae⟩) ⟨false, true, false⟩).2.2 (by decide) (by decide)).1.trans
    (by decide)

/-- C4 fails at a name that holds a newline, as a quoted csv field may: the
row is accepted and its block has nine lines, the name taking two of them. -/
theorem QifRecord_name_with_newline :
    (ParseRecord (sampleRow "20161003" "Albert\nHeijn" "Af" "12,34")).map
        (fun r => lines (r.QifRecord ⟨false, true, false⟩)) =
      .ok (["D10/03/2016", "T-12.34", "U-12.34", "PAlbert", "Heijn", "MBetaalautomaat",
        "Cc", "N", "^"].map String.toList) ∧
    (["D10/03/2016", "T-12.34", "U-12.34", "PAlbert", "Heijn", "MBetaalautomaat",
        "Cc", "N", "^"].map String.toList).length = 9 :=
  ⟨by decide, by decide⟩

/-! ### The date line -/

theorem appendInt_two (a b : Nat) (ha : a < 10) (hb : b < 10) :
    time.appendInt ((a * 10 + b : Nat) : Int) 2 = [digitChar a, digitChar b] := by
  have hneg : ¬ (((a * 10 + b : Nat) : Int) < 0) := by omega
  simp only [time.appendInt, Int.natAbs_ofNat, hneg, if_false, List.nil_append]
  by_cases h0 : a = 0
  · subst h0
    simp only [Nat.zero_mul, Nat.zero_add]
    rw [formatNat_lt hb]
    rfl
  · rw [formatNat_ge (by omega)]
    have h1 : (a * 10 + b) / 10 = a := by omega
    have h2 : (a * 10 + b) % 10 = b := by omega
    rw [h1, h2, formatNat_lt ha]
    rfl

theorem formatNat_three (a b c : Nat) (ha : 0 < a) (ha' : a < 10) (hb : b < 10)
    (hc : c < 10) :
    formatNat (a * 100 + b * 10 + c) = [digitChar a, digitChar b, digitChar c] := by
  rw [formatNat_ge (by omega)]
  have h1 : (a * 100 + b * 10 + c) / 10 = a * 10 + b := by omega
  have h2 : (a * 100 + b * 10 + c) % 10 = c := by omega
  rw [h1, h2, formatNat_ge (by omega)]
  have h3 : (a * 10 + b) / 10 = a := by omega
  have h4 : (a * 10 + b) % 10 = b := by omega
  rw [h3, h4, formatNat_lt ha']
  rfl

theorem appendInt_four (a b c d : Nat) (ha : a < 10) (hb : b < 10) (hc : c < 10)
    (hd : d < 10) :
    time.appendInt ((a * 1000 + b * 100 + c * 10 + d : Nat) : Int) 4 =
      [digitChar a, digitChar b, digitChar c, digitChar d] := by
  have hneg : ¬ (((a * 1000 + b * 100 + c * 10 + d : Nat) : Int) < 0) := by omega
  simp only [time.appendInt, Int.natAbs_ofNat, hneg, if_false, List.nil_append]
  by_cases ha0 : a = 0
  · subst ha0
    simp only [Nat.zero_mul, Nat.zero_add]
    by_cases hb0 : b = 0
    · subst hb0
      simp only [Nat.zero_mul, Nat.zero_add]
      by_cases hc0 : c = 0
      · subst hc0
        simp only [Nat.zero_mul, Nat.zero_add]
        rw [formatNat_lt hd]
        rfl
      · rw [formatNat_ge (by omega)]
        have h1 : (c * 10 + d) / 10 = c := by omega
        have h2 : (c * 10 + d) % 10 = d := by omega
        rw [h1, h2, formatNat_lt hc]
        rfl
    · rw [formatNat_three b c d (by omega) hb hc hd]
      rfl
  · rw [formatNat_ge (by omega)]
    have h1 : (a * 1000 + b * 100 + c * 10 + d) / 10 = a * 100 + b * 10 + c := by omega
    have h2 : (a * 1000 + b * 100 + c * 10 + d) % 10 = d := by omega
    rw [h1, h2, formatNat_three a b c (by omega) ha hb hc]
    rfl

/-- C6: a nine-column row whose column 0 is eight digits YYYYMMDD naming a
month from 1 to 12 and a day that exists in that month, and whose amount
column parses, is accepted; the date of its record formats as MM/DD/YYYY with
the same digits, and the block begins with "D", these ten characters and a
newline. -/
theorem ParseRecord_QifRecord_date (raw : List GoString) (o : Options)
    (y1 y2 y3 y4 m1 m2 d1 d2 : Char) (a : Float64)
    (hlen : raw.length = 9)
    (hdate : raw.getD 0 [] = [y1, y2, y3, y4, m1, m2, d1, d2])
    (hy : isDigit y1 = true ∧ isDigit y2 = true ∧ isDigit y3 = true ∧ isDigit y4 = true)
    (hm : isDigit m1 = true ∧ isDigit m2 = true)
    (hd : isDigit d1 = true ∧ isDigit d2 = true)
    (hmonth : 1 ≤ digitVal m1 * 10 + digitVal m2 ∧ digitVal m1 * 10 + digitVal m2 ≤ 12)
    (hday : 1 ≤ digitVal d1 * 10 + digitVal d2 ∧
      digitVal d1 * 10 + digitVal d2 ≤
        time.daysIn (digitVal m1 * 10 + digitVal m2)
          (digitVal y1 * 1000 + digitVal y2 * 100 + digitVal y3 * 10 + digitVal y4))
    (hamount : strconv.ParseFloat
      (strings.ReplaceFirst (raw.getD 6 []) ",".toList ".".toList) = .ok a) :
    ∃ r, ParseRecord raw = .ok r ∧
      time.Format01_02_2006 r.Date = [m1, m2, '/', d1, d2, '/', y1, y2, y3, y4] ∧
      (r.QifRecord o).take 12 = ['D', m1, m2, '/', d1, d2, '/', y1, y2, y3, y4, '\n'] := by
  obtain ⟨hy1, hy2, hy3, hy4⟩ := hy
  obtain ⟨hm1, hm2⟩ := hm
  obtain ⟨hd1, hd2⟩ := hd
  have hparse : time.Parse20060102 (raw.getD 0 []) =
      .ok { year := ((digitVal y1 * 1000 + digitVal y2 * 100 + digitVal y3 * 10 + digitVal y4
                : Nat) : Int),
            month := digitVal m1 * 10 + digitVal m2,
            day := digitVal d1 * 10 + digitVal d2 } := by
    have hmo : ¬ (digitVal m1 * 10 + digitVal m2 = 0 ∨ 12 < digitVal m1 * 10 + digitVal m2) := by
      omega
    have hda : ¬ (digitVal d1 * 10 + digitVal d2 < 1 ∨
        time.daysIn (digitVal m1 * 10 + digitVal m2)
          (digitVal y1 * 1000 + digitVal y2 * 100 + digitVal y3 * 10 + digitVal y4)
          < digitVal d1 * 10 + digitVal d2) := by
      omega
    rw [hdate]
    simp only [time.Parse20060102, hy1, hy2, hy3, hy4, hm1, hm2, hd1, hd2, Bool.and_self,
      Bool.not_true, Bool.false_eq_true, if_false, hmo, hda, List.isEmpty_nil]
  have hfmt : time.Format01_02_2006
      { year := ((digitVal y1 * 1000 + digitVal y2 * 100 + digitVal y3 * 10 + digitVal y4
                : Nat) : Int),
        month := digitVal m1 * 10 + digitVal m2,
        day := digitVal d1 * 10 + digitVal d2 } =
      [m1, m2, '/', d1, d2, '/', y1, y2, y3, y4] := by
    unfold time.Format01_02_2006
    simp only
    rw [appendInt_two _ _ (digitVal_lt hm1) (digitVal_lt hm2),
      appendInt_two _ _ (digitVal_lt hd1) (digitVal_lt hd2),
      appendInt_four _ _ _ _ (digitVal_lt hy1) (digitVal_lt hy2) (digitVal_lt hy3)
        (digitVal_lt hy4)]
    simp only [digitChar_digitVal hy1, digitChar_digitVal hy2, digitChar_digitVal hy3,
      digitChar_digitVal hy4, digitChar_digitVal hm1, digitChar_digitVal hm2,
      digitChar_digitVal hd1, digitChar_digitVal hd2]
    rfl
  obtain ⟨r, hr, hrd, _⟩ := ParseRecord_accepts raw _ a hlen hparse hamount
  refine ⟨r, hr, by rw [hrd]; exact hfmt, ?_⟩
  simp only [Record.QifRecord, hrd, hfmt]
  rfl

/-- C6 at the date "20161003": the date line reads "D10/03/2016". -/
theorem ParseRecord_QifRecord_date_witness :
    ∃ r, ParseRecord (sampleRow "20161003" "Albert Heijn" "Af" "12,34") = .ok r ∧
      time.Format01_02_2006 r.Date = "10/03/2016".toList ∧
      (r.QifRecord ⟨false, true, false⟩).take 12 = "D10/03/2016\n".toList :=
  ParseRecord_QifRecord_date (sampleRow "20161003" "Albert Heijn" "Af" "12,34")
    ⟨false, true, false⟩ '2' '0' '1' '6' '1' '0' '0' '3' ⟨false, 1026, 0x8ae147ae147ae⟩
    (by decide) (by decide) (by decide) (by decide) (by decide) (by decide) (by decide)
    (by decide)

/-! ### The amount lines -/

/-- The first three lines of every block: the date line and the two amount
lines with the same text. -/
theorem QifRecord_first_lines (r : Record) (o : Options) :
    ∃ rest, lines (r.QifRecord o) =
      ('D' :: time.Format01_02_2006 r.Date) :: ('T' :: fmt.Sprintf_2f r.Amount) ::
        ('U' :: fmt.Sprintf_2f r.Amount) :: rest := by
  have hD : '\n' ∉ 'D' :: time.Format01_02_2006 r.Date := by
    simp [newline_not_mem_Format]
  have hT : '\n' ∉ 'T' :: fmt.Sprintf_2f r.Amount := by
    simp [newline_not_mem_Sprintf_2f]
  have hU : '\n' ∉ 'U' :: fmt.Sprintf_2f r.Amount := by
    simp [newline_not_mem_Sprintf_2f]
  have e : r.QifRecord o =
      ('D' :: time.Format01_02_2006 r.Date) ++ '\n' ::
        (('T' :: fmt.Sprintf_2f r.Amount) ++ '\n' ::
          (('U' :: fmt.Sprintf_2f r.Amount) ++ '\n' ::
            (("P".toList ++ r.Name ++ "\n".toList) ++
             ("M".toList ++ strings.Join (r.comments o) " ".toList ++ "\n".toList) ++
             "Cc\n".toList ++ "N\n".toList ++ "^\n".toList))) := by
    simp [Record.QifRecord]
  rw [e, lines_append_newline _ _ hD, lines_append_newline _ _ hT,
    lines_append_newline _ _ hU]
  exact ⟨_, rfl⟩

/-- C7, amended: on an accepted row whose amount is finite, the T line and the
U line carry the same text: a minus sign exactly when the amount's sign bit is
set, then one or more digits, a point and exactly two digits, which read as the
amount in hundredths rounded half to even. Amount "12,34" with direction "Af"
gives "-12.34" and amount "50,00" with direction "Bij" gives "50.00". -/
theorem QifRecord_amount_lines (raw : List GoString) (r : Record) (o : Options)
    (h : ParseRecord raw = .ok r) :
    (r.Amount.IsFinite = true →
      ∃ ds d1 d2,
        fmt.Sprintf_2f r.Amount = (if r.Amount.sign then ['-'] else []) ++ ds ++ ['.', d1, d2] ∧
        ds ≠ [] ∧ (∀ c ∈ ds, isDigit c = true) ∧ isDigit d1 = true ∧ isDigit d2 = true ∧
        readNat ds * 100 + readNat [d1, d2] = fmt.hundredths r.Amount) ∧
    (∃ rest, lines (r.QifRecord o) =
      ('D' :: time.Format01_02_2006 r.Date) :: ('T' :: fmt.Sprintf_2f r.Amount) ::
        ('U' :: fmt.Sprintf_2f r.Amount) :: rest) ∧
    (raw.getD 5 [] = "Af".toList → raw.getD 6 [] = "12,34".toList →
      fmt.Sprintf_2f r.Amount = "-12.34".toList) ∧
    (raw.getD 5 [] = "Bij".toList → raw.getD 6 [] = "50,00".toList →
      fmt.Sprintf_2f r.Amount = "50.00".toList) := by
  obtain ⟨hlen, ⟨date, hdate⟩, ⟨a, ha⟩⟩ := ParseRecord_ok raw r h
  obtain ⟨r', hr', _, _, hamt'⟩ := ParseRecord_accepts raw date a hlen hdate ha
  have hrr : r' = r := by
    rw [h] at hr'
    exact (Except.ok.inj hr').symm
  subst hrr
  refine ⟨?_, QifRecord_first_lines r' o, ?_, ?_⟩
  · intro hfin
    refine ⟨formatNat (fmt.hundredths r'.Amount / 100),
      digitChar (fmt.hundredths r'.Amount % 100 / 10),
      digitChar (fmt.hundredths r'.Amount % 100 % 10),
      Sprintf_2f_finite _ hfin, formatNat_ne_nil _, isDigit_of_mem_formatNat _,
      isDigit_digitChar (by omega), isDigit_digitChar (by omega), ?_⟩
    rw [readNat_formatNat]
    simp only [readNat, List.foldl_cons, List.foldl_nil]
    rw [digitVal_digitChar (show fmt.hundredths r'.Amount % 100 / 10 < 10 by omega),
      digitVal_digitChar (show fmt.hundredths r'.Amount % 100 % 10 < 10 by omega)]
    omega
  · intro h5 h6
    rw [h6] at ha
    rw [h5] at hamt'
    have ha' : a = ⟨false, 1026, 0x8ae147ae147ae⟩ :=
      Except.ok.inj (ha.symm.trans (by decide))
    rw [hamt', ha']
    decide
  · intro h5 h6
    rw [h6] at ha
    rw [h5] at hamt'
    have ha' : a = ⟨false, 1028, 0x9000000000000⟩ :=
      Except.ok.inj (ha.symm.trans (by decide))
    rw [hamt', ha']
    decide

/-- C7 at the row with amount "12,34" and direction "Af": both amount lines
carry "-12.34". -/
theorem QifRecord_amount_lines_witness :
    fmt.Sprintf_2f (sampleRecord "20161003" "Albert Heijn" "Af" "12,34" ⟨2016, 10, 3⟩
        ⟨true, 1026, 0x8ae147ae147ae⟩).Amount = "-12.34".toList ∧
    lines ((sampleRecord "20161003" "Albert Heijn" "Af" "12,34" ⟨2016, 10, 3⟩
        ⟨true, 1026, 0x8ae147ae147ae⟩).QifRecord ⟨false, true, false⟩) =
      ["D10/03/2016", "T-12.34", "U-12.34", "PAlbert Heijn", "MBetaalautomaat", "Cc", "N",
       "^"].map String.toList :=
  ⟨(QifRecord_amount_lines (sampleRow "20161003" "Albert Heijn" "Af" "12,34")
      (sampleRecord "20161003" "Albert Heijn" "Af" "12,34" ⟨2016, 10, 3⟩
        ⟨true, 1026, 0x8ae147ae147ae⟩) ⟨false, true, false⟩ (by decide)).2.2.1
      (by decide) (by decide),
    by decide⟩

/-- C7 fails at the amounts "NaN" and "Inf", which `strconv.ParseFloat`
accepts: the rows are accepted and their amount lines read "TNaN", "UNaN" and
"T+Inf", "U+Inf", without any digit. -/
theorem QifRecord_amount_not_finite :
    (ParseRecord (sampleRow "20161003" "Werkgever" "Bij" "NaN")).map
        (fun r => lines (r.QifRecord ⟨false, true, false⟩)) =
      .ok (["D10/03/2016", "TNaN", "UNaN", "PWerkgever", "MBetaalautomaat", "Cc", "N",
        "^"].map String.toList) ∧
    (ParseRecord (sampleRow "20161003" "Werkgever" "Bij" "Inf")).map
        (fun r => lines (r.QifRecord ⟨false, true, false⟩)) =
      .ok (["D10/03/2016", "T+Inf", "U+Inf", "PWerkgever", "MBetaalautomaat", "Cc", "N",
        "^"].map String.toList) :=
  ⟨by decide, by decide⟩

/-! ### The lines of a run's output -/

/-- The lines of a text that continues after a newline: the lines up to that
newline, then the lines of the rest. -/
theorem lines_append_after_newline (a b : GoString) :
    lines (a ++ '\n' :: b) = lines (a ++ ['\n']) ++ lines b := by
  have hne : ∀ a : GoString, lines (a ++ ['\n']) ≠ [] := by
    intro a
    cases a with
    | nil => simp [lines]
    | cons c a =>
      by_cases hc : c = '\n'
      · simp [lines, hc]
      · simp only [List.cons_append, lines, hc, if_false, List.append_eq]
        split <;> simp
  induction a with
  | nil => simp [lines]
  | cons c a ih =>
    by_cases hc : c = '\n'
    · simp [lines, hc, ih]
    · have h1 := hne a
      simp only [List.cons_append, lines, hc, if_false, List.append_eq, ih]
      cases h : lines (a ++ ['\n']) with
      | nil => exact absurd h h1
      | cons l ls => simp

theorem unlines_append (xs ys : List GoString) :
    unlines (xs ++ ys) = unlines xs ++ unlines ys := by
  simp [unlines]

theorem unlines_flatten (ls : List (List GoString)) :
    unlines ls.flatten = (ls.map unlines).flatten := by
  induction ls with
  | nil => simp [unlines]
  | cons l ls ih => simp [unlines_append, ih]

/-- The pieces of a block hold no newline when the name and the memo hold
none. -/
theorem newline_not_mem_qifLines (r : Record) (o : Options)
    (hName : '\n' ∉ r.Name) (hMemo : '\n' ∉ memoSpec r o) :
    ∀ l ∈ qifLines r o, '\n' ∉ l := by
  intro l hl
  simp only [qifLines, List.mem_cons, List.mem_singleton, List.mem_nil_iff, or_false] at hl
  have hD := newline_not_mem_Format r.Date
  have hT := newline_not_mem_Sprintf_2f r.Amount
  rcases hl with rfl | rfl | rfl | rfl | rfl | rfl | rfl | rfl <;>
    simp [hD, hT, hName, hMemo]

/-- No piece of a block is the header line. -/
theorem QifHeader_not_mem_qifLines (r : Record) (o : Options) :
    QifHeader ∉ qifLines r o := by
  intro h
  simp only [qifLines, List.mem_cons, List.mem_singleton, List.mem_nil_iff, or_false] at h
  rcases h with h | h | h | h | h | h | h | h <;>
    exact absurd (congrArg List.head? h) (by simp [QifHeader])

/-! ### The memo line -/

/-- C5, amended: the memo piece of the block is "M" followed by the enabled
fragments among code, transaction kind and comments, in that order, joined by
single spaces; a disabled fragment leaves nothing behind, an enabled empty
fragment keeps its separators, and with all three disabled the memo is empty.
When the memo contains no newline this piece is a line of the block, and when
the name contains none either it is the fifth line. -/
theorem QifRecord_memo (r : Record) (o : Options) :
    r.QifRecord o =
      ("D".toList ++ time.Format01_02_2006 r.Date ++ "\n".toList) ++
      ("T".toList ++ fmt.Sprintf_2f r.Amount ++ "\n".toList) ++
      ("U".toList ++ fmt.Sprintf_2f r.Amount ++ "\n".toList) ++
      ("P".toList ++ r.Name ++ "\n".toList) ++
      ("M".toList ++ memoSpec r o ++ "\n".toList) ++
      "Cc\nN\n^\n".toList ∧
    memoSpec r ⟨false, false, false⟩ = [] ∧
    memoSpec r ⟨true, false, false⟩ = r.Code ∧
    memoSpec r ⟨false, true, false⟩ = r.TransactionKind ∧
    memoSpec r ⟨false, false, true⟩ = r.Comments ∧
    memoSpec r ⟨true, true, false⟩ = r.Code ++ [' '] ++ r.TransactionKind ∧
    memoSpec r ⟨true, false, true⟩ = r.Code ++ [' '] ++ r.Comments ∧
    memoSpec r ⟨false, true, true⟩ = r.TransactionKind ++ [' '] ++ r.Comments ∧
    memoSpec r ⟨true, true, true⟩ =
      r.Code ++ [' '] ++ r.TransactionKind ++ [' '] ++ r.Comments ∧
    memoSpec { r with TransactionKind := "Diversen".toList } ⟨false, true, false⟩
      = "Diversen".toList ∧
    memoSpec { r with Code := "BA".toList, TransactionKind := "Diversen".toList,
                      Comments := "Lunch".toList } ⟨true, true, true⟩
      = "BA Diversen Lunch".toList ∧
    ('\n' ∉ memoSpec r o → ('M' :: memoSpec r o) ∈ lines (r.QifRecord o)) ∧
    ('\n' ∉ r.Name → '\n' ∉ memoSpec r o →
      (lines (r.QifRecord o)).get? 4 = some ('M' :: memoSpec r o)) := by
  refine ⟨?_, ?_, ?_, ?_, ?_, ?_, ?_, ?_, ?_, ?_, ?_, ?_, ?_⟩
  · rcases o with ⟨a, b, c⟩
    cases a <;> cases b <;> cases c <;>
      simp [Record.QifRecord, Record.comments, strings.Join, memoSpec, List.intercalate]
  all_goals try (simp [memoSpec, List.intercalate]; done)
  · intro hMemo
    have hM : '\n' ∉ 'M' :: memoSpec r o := by simp [hMemo]
    have e : r.QifRecord o =
        (("D".toList ++ time.Format01_02_2006 r.Date ++ "\n".toList) ++
         ("T".toList ++ fmt.Sprintf_2f r.Amount ++ "\n".toList) ++
         ("U".toList ++ fmt.Sprintf_2f r.Amount ++ "\n".toList) ++
         ("P".toList ++ r.Name)) ++ '\n' ::
          (('M' :: memoSpec r o) ++ '\n' :: "Cc\nN\n^\n".toList) := by
      unfold Record.QifRecord
      rw [Join_comments]
      simp
    rw [e, lines_append_after_newline, lines_append_newline _ _ hM]
    simp
  · intro hName hMemo
    have hl : lines (r.QifRecord o) = qifLines r o := by
      rw [QifRecord_eq_unlines]
      exact lines_unlines _ (newline_not_mem_qifLines r o hName hMemo)
    rw [hl]
    rfl

/-- C5 at the record of a payment to "Albert Heijn" with only the transaction
kind in the memo: the fifth line of the block is "MBetaalautomaat". -/
theorem QifRecord_memo_witness :
    (lines ((sampleRecord "20161003" "Albert Heijn" "Af" "12,34" ⟨2016, 10, 3⟩
        ⟨true, 1026, 0x8ae147ae147ae⟩).QifRecord ⟨false, true, false⟩)).get? 4 =
      some "MBetaalautomaat".toList :=
  ((QifRecord_memo (sampleRecord "20161003" "Albert Heijn" "Af" "12,34" ⟨2016, 10, 3⟩
      ⟨true, 1026, 0x8ae147ae147ae⟩) ⟨false, true, false⟩).2.2.2.2.2.2.2.2.2.2.2.2
    (by decide) (by decide)).trans (by decide)

/-- C5 fails at a comments column that holds a newline, as a quoted csv field
may: the row is accepted, and with all three fragments enabled no line of its
block is "M" followed by the memo; the memo spreads over two lines. -/
theorem QifRecord_memo_with_newline :
    (ParseRecord (memoRow "BA" "Diversen" "Lunch\nT999.00")).map
        (fun r => (lines (r.QifRecord ⟨true, true, true⟩),
          decide (('M' :: memoSpec r ⟨true, true, true⟩) ∈
            lines (r.QifRecord ⟨true, true, true⟩)))) =
      .ok (["D10/03/2016", "T-12.34", "U-12.34", "PAlbert Heijn", "MBA Diversen Lunch",
        "T999.00", "Cc", "N", "^"].map String.toList, false) := by
  decide

/-! ### The output of a run -/

/-- C8, amended: when every row has as many columns as the first row and
every data row parses (the rows after the first when the header is skipped,
all rows otherwise), the run ends without error and its output is the header
line "!Type:Bank" followed by the block of each data row in input order and
nothing else; its first line is the header line, and without data rows the
output is the header line alone. When no name and no memo of the records holds
a newline, the lines of the output are the header line and the eight lines of
each block, and the header line occurs exactly once among them. -/
theorem run_output (skipHeaders : Bool) (o : Options) (rows : List (List GoString))
    (records : List Record)
    (hcols : ∀ raw ∈ rows, raw.length = (rows.headD []).length)
    (hparse : List.Forall₂ (fun raw r => ParseRecord raw = .ok r)
      (if skipHeaders then rows.tail else rows) records) :
    run skipHeaders o rows =
      { output := QifHeader ++ "\n".toList ++
          (records.map (fun r => r.QifRecord o)).flatten,
        fatal := none } ∧
    (records = [] → (run skipHeaders o rows).output = "!Type:Bank\n".toList) ∧
    (lines (run skipHeaders o rows).output).head? = some QifHeader ∧
    ((∀ r ∈ records, '\n' ∉ r.Name ∧ '\n' ∉ memoSpec r o) →
      lines (run skipHeaders o rows).output =
        QifHeader :: (records.map (fun r => qifLines r o)).flatten ∧
      (lines (run skipHeaders o rows).output).count QifHeader = 1) := by
  have main := run_header_blocks skipHeaders o rows records hcols hparse
  have hH : '\n' ∉ QifHeader := by decide
  refine ⟨main, ?_, ?_, ?_⟩
  · intro hnil
    rw [main, hnil]
    rfl
  · rw [main]
    show (lines (QifHeader ++ '\n' :: _)).head? = _
    rw [lines_append_newline _ _ hH]
    rfl
  · intro hrec
    have hout : (run skipHeaders o rows).output =
        unlines (QifHeader :: (records.map (fun r => qifLines r o)).flatten) := by
      rw [main]
      have e : (records.map (fun r => r.QifRecord o)) =
          (records.map (fun r => qifLines r o)).map unlines := by
        simp [QifRecord_eq_unlines]
      simp only [e, ← unlines_flatten]
      simp [unlines]
    have hl : lines (run skipHeaders o rows).output =
        QifHeader :: (records.map (fun r => qifLines r o)).flatten := by
      rw [hout]
      apply lines_unlines
      intro l hl
      rcases List.mem_cons.mp hl with rfl | hl
      · exact hH
      · obtain ⟨ls, hls, hlm⟩ := List.mem_flatten.mp hl
        obtain ⟨r, hr, rfl⟩ := List.mem_map.mp hls
        exact newline_not_mem_qifLines r o (hrec r hr).1 (hrec r hr).2 l hlm
    refine ⟨hl, ?_⟩
    rw [hl, List.count_cons_self]
    have h0 : QifHeader ∉ (records.map (fun r => qifLines r o)).flatten := by
      intro h
      obtain ⟨ls, hls, hlm⟩ := List.mem_flatten.mp h
      obtain ⟨r, _, rfl⟩ := List.mem_map.mp hls
      exact QifHeader_not_mem_qifLines r o hlm
    rw [List.count_eq_zero_of_not_mem h0]

/-- C8 at a header row followed by two data rows, with header skipping: the
output is the header line and the two blocks. -/
theorem run_output_witness :
    (run true ⟨false, true, false⟩
      [headerRow, sampleRow "20161003" "Albert Heijn" "Af" "12,34",
       sampleRow "20161004" "Werkgever" "Bij" "50,00"] =
      { output := ("!Type:Bank\n" ++
          "D10/03/2016\nT-12.34\nU-12.34\nPAlbert Heijn\nMBetaalautomaat\nCc\nN\n^\n" ++
          "D10/04/2016\nT50.00\nU50.00\nPWerkgever\nMBetaalautomaat\nCc\nN\n^\n").toList,
        fatal := none }) :=
  (run_output true ⟨false, true, false⟩
    [headerRow, sampleRow "20161003" "Albert Heijn" "Af" "12,34",
     sampleRow "20161004" "Werkgever" "Bij" "50,00"]
    [sampleRecord "20161003" "Albert Heijn" "Af" "12,34" ⟨2016, 10, 3⟩
       ⟨true, 1026, 0x8ae147ae147ae⟩,
     sampleRecord "20161004" "Werkgever" "Bij" "50,00" ⟨2016, 10, 4⟩
       ⟨false, 1028, 0x9000000000000⟩]
    (by decide)
    (List.Forall₂.cons (by decide) (List.Forall₂.cons (by decide) List.Forall₂.nil))).1.trans
    (by decide)

/-- C8 fails at a one-column first row followed by a data row that parses,
with header skipping: the csv reader refuses the data row for its field count,
so the output is the header line alone and the run ends with a fatal error. -/
theorem run_output_short_header :
    (ParseRecord (sampleRow "20161003" "Albert Heijn" "Af" "12,34")).isOk = true ∧
    run true ⟨false, true, false⟩
        [["Datum".toList], sampleRow "20161003" "Albert Heijn" "Af" "12,34"] =
      { output := "!Type:Bank\n".toList, fatal := some (.read 2) } :=
  ⟨by decide, by decide⟩

/-- A name that holds a newline and the header text after it puts the header
text among the lines of the output a second time. -/
theorem run_output_header_twice :
    (lines (run true ⟨false, true, false⟩
      [headerRow, sampleRow "20161003" "Albert\n!Type:Bank" "Af" "12,34"]).output).count
        QifHeader = 2 := by
  decide

end Csv2Qif
